import Mathlib

/-!
Verification of the reader/library simulation (`ParteC_en_Python.py`).

The program simulates N reader threads (`funcion_lector`) visiting M
libraries, each holding K books.  The shared state is the matrix
`bibliotecas` (entry 1 = book available, 0 = book taken), one mutex per
library.  Each reader starts at library `id % M`, and in a loop of at
most K iterations: under the library's lock it scans the K books in
ascending order and takes the first available one; if none is available
it logs an abandonment and stops; otherwise it sleeps for
`random.random() * 2 + 1` seconds outside any lock, then under the same
lock returns the same book, logs, moves to library `(actual + 1) % M`
and continues.  When the loop finishes all K iterations it logs a
completion event.

We embed the shared state shallowly: a library is a `List Nat` of book
flags, the pool matrix a list of libraries.  The two critical sections
of `funcion_lector` become atomic steps of a labelled transition
relation `Paso` over a global state (matrix + local states of all
readers); the labels record the observable events together with a flag
telling whether the event is emitted while the emitting reader holds
the library's lock.  A sequential denotation `funcionLectorSolo` of one
reader running without interference is also given for the single-agent
scenarios.
-/

namespace ParteC

/-- One library's shelf: `bibliotecas[p]` in the source, entry 1 = book
available, 0 = taken (source line 31 of `ParteC/ParteC_en_Python.py`). -/
abbrev Biblioteca := List Nat

/-- The shared matrix `bibliotecas`: M libraries of K books each. -/
abbrev Bibliotecas := List Biblioteca

/-- Initial shared state, source line 31:
`[[1 for _ in range(K)] for _ in range(M)]`. -/
def bibliotecasInit (M K : Nat) : Bibliotecas :=
  List.replicate M (List.replicate K 1)

/-- The inner scan `for k in range(K): if bibliotecas[b][k] == 1: ... break`
(source lines 102-117): index of the first entry equal to 1, if any. -/
def primerDisponible : Biblioteca → Option Nat
  | [] => none
  | x :: xs => if x == 1 then some 0 else (primerDisponible xs).map Nat.succ

/-- The first critical section (source lines 100-118): under the lock of
library `p`, take the first available book of `p` (mark it 0) and report
its index; report `none` (the source's `libro_tomado = -1`) and change
nothing when no book of `p` is available. -/
def acquireAny (bibs : Bibliotecas) (p : Nat) : Option Nat × Bibliotecas :=
  match bibs[p]? with
  | none => (none, bibs)
  | some bib =>
    match primerDisponible bib with
    | none => (none, bibs)
    | some k => (some k, bibs.set p (bib.set k 0))

/-- The second critical section (source lines 127-141): under the same lock,
`bibliotecas[biblioteca_actual][libro_tomado] = 1`. -/
def release (bibs : Bibliotecas) (p k : Nat) : Bibliotecas :=
  match bibs[p]? with
  | none => bibs
  | some bib => bibs.set p (bib.set k 1)

/-- Flag of book `k` of library `p` (1 when the indices are out of range,
matching the all-available rest state only vacuously; all theorems guard
the in-range cases). -/
def slotAt (bibs : Bibliotecas) (p k : Nat) : Nat :=
  ((bibs[p]?).getD []).getD k 1

/- ### Observable events

Each `logger.info` / `print` of `funcion_lector` becomes an event; the
Bool attached to an emitted event in a transition label records whether
the reader holds its library's lock at the moment of emission. -/

/-- The trace events of `funcion_lector` (source lines 106-116, 122,
130-149, 152-161, 166-171). -/
inductive Evento where
  /-- `obtiene_libro | lector | biblioteca | libro` (lines 106-116). -/
  | obtiene_libro (lector biblioteca libro : Nat)
  /-- the `time.sleep(random.random() * 2 + 1)` suspension (line 122). -/
  | duerme (lector : Nat)
  /-- `devuelve_libro | lector | biblioteca | libro` (lines 130-140). -/
  | devuelve_libro (lector biblioteca libro : Nat)
  /-- `cambia_biblioteca | lector | siguiente` (lines 144-149). -/
  | cambia_biblioteca (lector siguiente : Nat)
  /-- `abandona | lector | biblioteca` (lines 152-161). -/
  | abandona (lector biblioteca : Nat)
  /-- `finaliza | lector | biblioteca` (for-else, lines 166-171). -/
  | finaliza (lector biblioteca : Nat)
deriving DecidableEq, Repr

/-- Control point of one reader between the atomic sections. -/
inductive Fase where
  /-- at the top of the loop body, about to try the first critical section. -/
  | traversing
  /-- holding book `libro` of the current library, sleeping before returning it. -/
  | holding (libro : Nat)
  /-- the for-loop finished all K iterations (for-else branch). -/
  | completed
  /-- left the loop through the `else: break` (no book available). -/
  | abandoned
deriving DecidableEq, Repr

/-- Local state of one reader thread running `funcion_lector`. -/
structure Lector where
  id : Nat
  biblioteca_actual : Nat
  /-- number of completed acquire-hold-release iterations (the loop variable `i`). -/
  ciclos : Nat
  fase : Fase
deriving DecidableEq, Repr

/-- Global state: the shared matrix plus the local states of the N readers. -/
structure Estado where
  bibliotecas : Bibliotecas
  lectores : List Lector
deriving DecidableEq, Repr

/-- Local state of reader `id` at the start of `funcion_lector`:
`biblioteca_actual = id_lector % M` (source line 86), no iteration done.
With K = 0 the loop body never runs and the for-else fires at once. -/
def lectorInicial (M K id : Nat) : Lector :=
  { id := id, biblioteca_actual := id % M, ciclos := 0,
    fase := if K = 0 then Fase.completed else Fase.traversing }

/-- Global initial state built by the main block (source lines 195-217):
all books available, N readers at their starting libraries. -/
def estadoInicial (N M K : Nat) : Estado :=
  { bibliotecas := bibliotecasInit M K,
    lectores := (List.range N).map (lectorInicial M K) }

/-- `true` for the `Fase` values from which `funcion_lector` has returned. -/
def Fase.terminal : Fase → Bool
  | Fase.completed => true
  | Fase.abandoned => true
  | _ => false

/-- One atomic step of reader number `i` (its index among the N threads).
Each constructor is one critical section of `funcion_lector` together
with the lock-free code run directly around it; interleaving of the N
threads is arbitrary.  The label lists the emitted events in program
order, each tagged with whether the reader holds the library lock at
that point. -/
inductive Paso (M K : Nat) (i : Nat) : Estado → List (Evento × Bool) → Estado → Prop where
  /-- Lines 96-118, successful scan: under the lock of the current
  library, take the first available book `k` and enter the sleeping
  phase.  The `obtiene_libro` trace line is emitted inside the critical
  section. -/
  | adquiere (s : Estado) (l : Lector) (k : Nat) (bibs' : Bibliotecas)
      (hl : s.lectores[i]? = some l)
      (hf : l.fase = Fase.traversing)
      (ha : acquireAny s.bibliotecas l.biblioteca_actual = (some k, bibs')) :
      Paso M K i s
        [(Evento.obtiene_libro l.id l.biblioteca_actual k, true)]
        { bibliotecas := bibs',
          lectores := s.lectores.set i { l with fase := Fase.holding k } }
  /-- Lines 96-118 and 151-162, failed scan: `libro_tomado` stays -1, the
  reader logs `abandona` (outside the lock) and breaks out of the loop. -/
  | abandona (s : Estado) (l : Lector) (bibs' : Bibliotecas)
      (hl : s.lectores[i]? = some l)
      (hf : l.fase = Fase.traversing)
      (ha : acquireAny s.bibliotecas l.biblioteca_actual = (none, bibs')) :
      Paso M K i s
        [(Evento.abandona l.id l.biblioteca_actual, false)]
        { bibliotecas := bibs',
          lectores := s.lectores.set i { l with fase := Fase.abandoned } }
  /-- Lines 120-150 when the loop continues (`i + 1 < K`): wake from the
  sleep (which happened outside any lock), return the held book under
  the lock, log the move and start the next iteration at library
  `(biblioteca_actual + 1) % M`. -/
  | devuelve_sigue (s : Estado) (l : Lector) (k : Nat)
      (hl : s.lectores[i]? = some l)
      (hf : l.fase = Fase.holding k)
      (hc : l.ciclos + 1 < K) :
      Paso M K i s
        [(Evento.duerme l.id, false),
         (Evento.devuelve_libro l.id l.biblioteca_actual k, true),
         (Evento.cambia_biblioteca l.id ((l.biblioteca_actual + 1) % M), false)]
        { bibliotecas := release s.bibliotecas l.biblioteca_actual k,
          lectores := s.lectores.set i
            { l with biblioteca_actual := (l.biblioteca_actual + 1) % M,
                     ciclos := l.ciclos + 1, fase := Fase.traversing } }
  /-- Lines 120-150 and 164-171 when this was the last iteration
  (`i + 1 = K`): as above, but the loop ends and the for-else emits
  `finaliza` at the updated current library. -/
  | devuelve_termina (s : Estado) (l : Lector) (k : Nat)
      (hl : s.lectores[i]? = some l)
      (hf : l.fase = Fase.holding k)
      (hc : ¬ l.ciclos + 1 < K) :
      Paso M K i s
        [(Evento.duerme l.id, false),
         (Evento.devuelve_libro l.id l.biblioteca_actual k, true),
         (Evento.cambia_biblioteca l.id ((l.biblioteca_actual + 1) % M), false),
         (Evento.finaliza l.id ((l.biblioteca_actual + 1) % M), false)]
        { bibliotecas := release s.bibliotecas l.biblioteca_actual k,
          lectores := s.lectores.set i
            { l with biblioteca_actual := (l.biblioteca_actual + 1) % M,
                     ciclos := l.ciclos + 1, fase := Fase.completed } }

/-- States reachable from the initial state by interleaving reader steps. -/
inductive Alcanzable (N M K : Nat) : Estado → Prop where
  | inicial : Alcanzable N M K (estadoInicial N M K)
  | paso {s s' : Estado} {i : Nat} {tr : List (Evento × Bool)} :
      Alcanzable N M K s → Paso M K i s tr s' → Alcanzable N M K s'

/-- Executions of the whole system counted by number of steps. -/
inductive Ejecucion (N M K : Nat) : Estado → Nat → Estado → Prop where
  | nada (s : Estado) : Ejecucion N M K s 0 s
  | paso {s s' s'' : Estado} {n i : Nat} {tr : List (Evento × Bool)} :
      Ejecucion N M K s n s' → Paso M K i s' tr s'' → Ejecucion N M K s (n + 1) s''

/- ### Sequential denotation of one reader running alone -/

/-- Outcome of a full run of `funcion_lector` by a single reader with no
other thread touching the matrix. -/
structure ResultadoLector where
  bibliotecas : Bibliotecas
  /-- final value of `biblioteca_actual`. -/
  biblioteca_actual : Nat
  /-- number of successful acquire-hold-release iterations performed. -/
  ciclos : Nat
  /-- `true` when the for-loop ran to completion (for-else `finaliza`),
  `false` when the reader broke out through the `abandona` branch. -/
  completado : Bool
deriving DecidableEq, Repr

/-- The loop of `funcion_lector` (source lines 95-171) run by one reader
alone: `fuel` is the number of loop iterations still allowed (initially
K), `durs` the stream of sleep durations drawn at line 122 — the sleep
suspends the thread but never touches the matrix, so the durations are
consumed without affecting the shared state. -/
def funcionLectorSolo (M : Nat) (durs : List ℚ) (fuel pos ciclos : Nat)
    (bibs : Bibliotecas) : ResultadoLector :=
  match fuel with
  | 0 => ⟨bibs, pos, ciclos, true⟩
  | fuel' + 1 =>
    match acquireAny bibs pos with
    | (none, bibs') => ⟨bibs', pos, ciclos, false⟩
    | (some k, bibs') =>
        funcionLectorSolo M durs.tail fuel' ((pos + 1) % M) (ciclos + 1)
          (release bibs' pos k)

/-- The sleep duration of line 122, `random.random() * 2 + 1`, as a
function of the value `r` returned by `random.random()`. -/
def duracionLectura (r : ℚ) : ℚ := r * 2 + 1

/- ### The global invariant -/

/-- Whether reader `l` is currently holding book `k` of library `p`. -/
def posee (p k : Nat) (l : Lector) : Bool :=
  decide (l.biblioteca_actual = p ∧ l.fase = Fase.holding k)

/-- Number of readers currently holding book `k` of library `p`. -/
def poseedores (s : Estado) (p k : Nat) : Nat :=
  (s.lectores.filter (posee p k)).length

/-- Inductive invariant of the simulation, proved to hold in every
reachable state. -/
structure Inv (N M K : Nat) (s : Estado) : Prop where
  longM : s.bibliotecas.length = M
  longK : ∀ bib ∈ s.bibliotecas, bib.length = K
  numLectores : s.lectores.length = N
  posLt : ∀ l ∈ s.lectores, l.biblioteca_actual < M
  circular : ∀ l ∈ s.lectores, l.biblioteca_actual = (l.id + l.ciclos) % M
  ciclosFase : ∀ l ∈ s.lectores,
    (l.fase = Fase.completed → l.ciclos = K) ∧
    (l.fase ≠ Fase.completed → l.ciclos < K)
  libroLt : ∀ l ∈ s.lectores, ∀ k, l.fase = Fase.holding k → k < K
  conteo : ∀ p k, p < M → k < K →
    poseedores s p k = (if slotAt s.bibliotecas p k = 0 then 1 else 0)

/-- Number of books of one library currently marked taken (flag 0). -/
def cuentaOcupados (bib : Biblioteca) : Nat :=
  (bib.filter (fun v => v == 0)).length

/-- The events the source emits inside a critical section: the
`obtiene_libro` log (line 110, inside the first `with lock_actual`
block) and the `devuelve_libro` log (line 134, inside the second one).
All other events are emitted with no lock held. -/
def esEventoConLock : Evento → Bool
  | Evento.obtiene_libro _ _ _ => true
  | Evento.devuelve_libro _ _ _ => true
  | _ => false

/-- The property claim C7 asserts, taken from the spec's words: event
emission is never performed while holding a pool lock.  (Refuted below:
the source logs `obtiene_libro` and `devuelve_libro` inside the
critical sections.) -/
def EmisionSoloFueraDeLock (M K : Nat) : Prop :=
  ∀ (i : Nat) (s : Estado) (tr : List (Evento × Bool)) (s' : Estado),
    Paso M K i s tr s' → ∀ e ∈ tr, e.2 = false

/-- Termination measure of one reader: remaining steps of its own
thread (two per remaining loop iteration, the release step already
half-counted while holding). -/
def medidaLector (K : Nat) (l : Lector) : Nat :=
  match l.fase with
  | Fase.traversing => 2 * (K - l.ciclos)
  | Fase.holding _ => 2 * (K - l.ciclos) - 1
  | Fase.completed => 0
  | Fase.abandoned => 0

/-- Global termination measure: total remaining steps of all readers. -/
def medidaEstado (K : Nat) (s : Estado) : Nat :=
  (s.lectores.map (medidaLector K)).sum

/- ### Theorems -/

/- ### Basic facts about the scan -/

theorem primerDisponible_some {bib : Biblioteca} {k : Nat}
    (h : primerDisponible bib = some k) :
    bib[k]? = some 1 ∧ ∀ j, j < k → bib[j]? ≠ some 1 := by
  induction bib generalizing k with
  | nil => simp [primerDisponible] at h
  | cons x xs ih =>
    by_cases hx : x = 1
    · simp [primerDisponible, hx] at h
      subst h
      simp [hx]
    · simp [primerDisponible, hx] at h
      obtain ⟨k', hk', rfl⟩ := h
      obtain ⟨h1, h2⟩ := ih hk'
      refine ⟨by simpa using h1, ?_⟩
      intro j hj
      cases j with
      | zero => simpa using hx
      | succ j' =>
        simpa using h2 j' (by omega)

theorem primerDisponible_none {bib : Biblioteca}
    (h : primerDisponible bib = none) :
    ∀ j : Nat, bib[j]? ≠ some 1 := by
  induction bib with
  | nil => intro j; simp
  | cons x xs ih =>
    by_cases hx : x = 1
    · simp [primerDisponible, hx] at h
    · simp [primerDisponible, hx] at h
      intro j
      cases j with
      | zero => simpa using hx
      | succ j' => simpa using ih h j'

theorem primerDisponible_lt {bib : Biblioteca} {k : Nat}
    (h : primerDisponible bib = some k) : k < bib.length := by
  have h1 := (primerDisponible_some h).1
  exact List.getElem?_eq_some.mp h1 |>.choose

/- ### Plumbing lemmas -/

theorem acquireAny_some {bibs : Bibliotecas} {p k : Nat} {bibs' : Bibliotecas}
    (h : acquireAny bibs p = (some k, bibs')) :
    ∃ bib, bibs[p]? = some bib ∧ primerDisponible bib = some k ∧
      bibs' = bibs.set p (bib.set k 0) := by
  unfold acquireAny at h
  cases hbp : bibs[p]? with
  | none => rw [hbp] at h; simp at h
  | some bib =>
    rw [hbp] at h
    dsimp only at h
    cases hpd : primerDisponible bib with
    | none => rw [hpd] at h; simp at h
    | some k' =>
      rw [hpd] at h
      simp at h
      obtain ⟨rfl, rfl⟩ := h
      exact ⟨bib, rfl, hpd, rfl⟩

theorem acquireAny_none {bibs : Bibliotecas} {p : Nat} {bibs' : Bibliotecas}
    (h : acquireAny bibs p = (none, bibs')) :
    bibs' = bibs ∧ ∀ bib, bibs[p]? = some bib → ∀ j : Nat, bib[j]? ≠ some 1 := by
  unfold acquireAny at h
  cases hbp : bibs[p]? with
  | none =>
    rw [hbp] at h
    simp at h
    exact ⟨h.symm, by intro bib hbib; cases hbib⟩
  | some bib =>
    rw [hbp] at h
    dsimp only at h
    cases hpd : primerDisponible bib with
    | none =>
      rw [hpd] at h
      simp at h
      refine ⟨h.symm, ?_⟩
      intro bib' hbib'
      cases hbib'
      exact primerDisponible_none hpd
    | some k' => rw [hpd] at h; simp at h

theorem release_eq {bibs : Bibliotecas} {p : Nat} {bib : Biblioteca}
    (hp : bibs[p]? = some bib) (k : Nat) :
    release bibs p k = bibs.set p (bib.set k 1) := by
  unfold release
  rw [hp]

theorem slotAt_eq {bibs : Bibliotecas} {p : Nat} {bib : Biblioteca}
    (hp : bibs[p]? = some bib) (k : Nat) :
    slotAt bibs p k = (bib[k]?).getD 1 := by
  unfold slotAt
  rw [hp]
  simp

theorem slotAt_set_same {bibs : Bibliotecas} {p k : Nat} {bib : Biblioteca} (v : Nat)
    (hp : bibs[p]? = some bib) (hk : k < bib.length) :
    slotAt (bibs.set p (bib.set k v)) p k = v := by
  have hplen : p < bibs.length := (List.getElem?_eq_some.mp hp).choose
  unfold slotAt
  rw [List.getElem?_set_self (by simpa using hplen)]
  simp [List.getElem?_set_self (by simpa using hk)]

theorem slotAt_set_other {bibs : Bibliotecas} {p k : Nat} {bib : Biblioteca} (v : Nat)
    (hp : bibs[p]? = some bib) {p' k' : Nat} (hne : p' ≠ p ∨ k' ≠ k) :
    slotAt (bibs.set p (bib.set k v)) p' k' = slotAt bibs p' k' := by
  unfold slotAt
  rcases hne with hne | hne
  · rw [List.getElem?_set_ne (fun h => hne h.symm)]
  · by_cases hpp : p' = p
    · subst hpp
      by_cases hplen : p' < bibs.length
      · rw [List.getElem?_set_self (by simpa using hplen), hp]
        simp [List.getElem?_set_ne (fun h => hne h.symm)]
      · rw [List.getElem?_eq_none (by simpa using Nat.le_of_not_lt hplen)] at hp
        cases hp
    · rw [List.getElem?_set_ne (fun h => hpp h.symm)]

theorem length_filter_set {α : Type} (P : α → Bool) (l : List α) (i : Nat) (a b : α)
    (h : l[i]? = some a) :
    ((l.set i b).filter P).length + (if P a then 1 else 0)
      = (l.filter P).length + (if P b then 1 else 0) := by
  induction l generalizing i with
  | nil => simp at h
  | cons x xs ih =>
    cases i with
    | zero =>
      simp at h
      subst h
      by_cases hx : P x <;> by_cases hb : P b <;>
        simp [List.filter_cons, hx, hb]
    | succ i' =>
      simp at h
      have := ih i' h
      by_cases hx : P x <;> simp [List.filter_cons, hx] <;> omega

/- ### The invariant holds initially and is preserved by every step -/

theorem poseedores_inicial (N M K p k : Nat) :
    poseedores (estadoInicial N M K) p k = 0 := by
  unfold poseedores estadoInicial
  rw [List.length_eq_zero, List.filter_eq_nil_iff]
  intro l hl
  simp at hl
  obtain ⟨id, _, rfl⟩ := hl
  by_cases hK : K = 0 <;> simp [posee, lectorInicial, hK]

theorem slotAt_inicial {M K p k : Nat} (hp : p < M) (hk : k < K) :
    slotAt (bibliotecasInit M K) p k = 1 := by
  unfold slotAt bibliotecasInit
  rw [List.getElem?_replicate_of_lt hp]
  simp [List.getElem?_replicate_of_lt hk]

theorem inv_inicial (N M K : Nat) (hM : 0 < M) :
    Inv N M K (estadoInicial N M K) := by
  constructor
  · simp [estadoInicial, bibliotecasInit]
  · intro bib hb
    rw [List.eq_of_mem_replicate hb]
    simp
  · simp [estadoInicial]
  · intro l hl
    simp [estadoInicial] at hl
    obtain ⟨id, _, rfl⟩ := hl
    simpa [lectorInicial] using Nat.mod_lt id hM
  · intro l hl
    simp [estadoInicial] at hl
    obtain ⟨id, _, rfl⟩ := hl
    simp [lectorInicial]
  · intro l hl
    simp [estadoInicial] at hl
    obtain ⟨id, _, rfl⟩ := hl
    by_cases hK : K = 0
    · simp [lectorInicial, hK]
    · simp [lectorInicial, hK]
      omega
  · intro l hl k hk
    simp [estadoInicial] at hl
    obtain ⟨id, _, rfl⟩ := hl
    by_cases hK : K = 0 <;> simp [lectorInicial, hK] at hk
  · intro p k hp hk
    rw [poseedores_inicial]
    have hb : (estadoInicial N M K).bibliotecas = bibliotecasInit M K := rfl
    rw [hb, slotAt_inicial hp hk]
    simp

/-- Preservation of the invariant by the two release-step constructors
(they differ only in the new phase). -/
theorem inv_devuelve {N M K i : Nat} {s : Estado} {l : Lector} {k : Nat}
    (inv : Inv N M K s) (hl : s.lectores[i]? = some l) (hf : l.fase = Fase.holding k)
    {f' : Fase}
    (hf' : f' = Fase.traversing ∧ l.ciclos + 1 < K ∨
           f' = Fase.completed ∧ l.ciclos + 1 = K) :
    Inv N M K
      { bibliotecas := release s.bibliotecas l.biblioteca_actual k,
        lectores := s.lectores.set i
          { l with biblioteca_actual := (l.biblioteca_actual + 1) % M,
                   ciclos := l.ciclos + 1, fase := f' } } := by
  have hlmem : l ∈ s.lectores := List.getElem?_mem hl
  have hpM : l.biblioteca_actual < M := inv.posLt l hlmem
  have hM : 0 < M := Nat.zero_lt_of_lt hpM
  have hkK : k < K := inv.libroLt l hlmem k hf
  have hplen : l.biblioteca_actual < s.bibliotecas.length := by
    rw [inv.longM]; exact hpM
  obtain ⟨bib, hbp⟩ : ∃ b, s.bibliotecas[l.biblioteca_actual]? = some b :=
    ⟨_, List.getElem?_eq_getElem hplen⟩
  have hbibmem : bib ∈ s.bibliotecas := List.getElem?_mem hbp
  have hKbib : bib.length = K := inv.longK bib hbibmem
  have hrel : release s.bibliotecas l.biblioteca_actual k =
      s.bibliotecas.set l.biblioteca_actual (bib.set k 1) := release_eq hbp k
  have hl_in : l ∈ s.lectores.filter (posee l.biblioteca_actual k) :=
    List.mem_filter.mpr ⟨hlmem, by simp [posee, hf]⟩
  have hold_pos : 0 < poseedores s l.biblioteca_actual k := by
    unfold poseedores
    exact List.length_pos.mpr (List.ne_nil_of_mem hl_in)
  have hconteo := inv.conteo l.biblioteca_actual k hpM hkK
  have hslot0 : slotAt s.bibliotecas l.biblioteca_actual k = 0 := by
    by_contra hne
    rw [if_neg hne] at hconteo
    omega
  have hold1 : poseedores s l.biblioteca_actual k = 1 := by
    rw [hconteo, if_pos hslot0]
  have hfase_ne : ∀ k', f' ≠ Fase.holding k' := by
    rcases hf' with ⟨rfl, _⟩ | ⟨rfl, _⟩ <;> intro k' h <;> cases h
  constructor
  · rw [hrel]; simpa using inv.longM
  · intro bib' hb'
    rw [hrel] at hb'
    rcases List.mem_or_eq_of_mem_set hb' with h | rfl
    · exact inv.longK bib' h
    · simpa using hKbib
  · simpa using inv.numLectores
  · intro l' hl'
    rcases List.mem_or_eq_of_mem_set hl' with h | rfl
    · exact inv.posLt l' h
    · simpa using Nat.mod_lt _ hM
  · intro l' hl'
    rcases List.mem_or_eq_of_mem_set hl' with h | rfl
    · exact inv.circular l' h
    · show (l.biblioteca_actual + 1) % M = (l.id + (l.ciclos + 1)) % M
      rw [inv.circular l hlmem, Nat.mod_add_mod, Nat.add_assoc]
  · intro l' hl'
    rcases List.mem_or_eq_of_mem_set hl' with h | rfl
    · exact inv.ciclosFase l' h
    · rcases hf' with ⟨rfl, hlt⟩ | ⟨rfl, heq⟩
      · refine ⟨fun h => ?_, fun _ => hlt⟩
        cases h
      · refine ⟨fun _ => heq, fun h => ?_⟩
        exact absurd rfl h
  · intro l' hl' k' hk'
    rcases List.mem_or_eq_of_mem_set hl' with h | rfl
    · exact inv.libroLt l' h k' hk'
    · exact absurd hk' (hfase_ne k')
  · intro p' k' hp' hk'
    simp only [poseedores]
    have hfilter := length_filter_set (posee p' k') s.lectores i l
      { l with biblioteca_actual := (l.biblioteca_actual + 1) % M,
               ciclos := l.ciclos + 1, fase := f' } hl
    have hpos_new : posee p' k'
        { l with biblioteca_actual := (l.biblioteca_actual + 1) % M,
                 ciclos := l.ciclos + 1, fase := f' } = false := by
      unfold posee
      rw [decide_eq_false_iff_not]
      rintro ⟨h1, h2⟩
      exact hfase_ne k' h2
    by_cases hpk : p' = l.biblioteca_actual ∧ k' = k
    · obtain ⟨hp1, hp2⟩ := hpk
      subst hp1
      subst hp2
      have hpos_old : posee l.biblioteca_actual k' l = true := by
        simp [posee, hf]
      rw [hpos_old, hpos_new] at hfilter
      simp at hfilter
      have hold1' : (s.lectores.filter (posee l.biblioteca_actual k')).length = 1 := hold1
      rw [hrel, slotAt_set_same 1 hbp (by omega)]
      simp only [if_neg (by omega : ¬ (1 : Nat) = 0)]
      omega
    · have hpos_old : posee p' k' l = false := by
        unfold posee
        rw [decide_eq_false_iff_not]
        rintro ⟨h1, h2⟩
        rw [hf] at h2
        cases h2
        exact hpk ⟨h1.symm, rfl⟩
      rw [hpos_old, hpos_new] at hfilter
      simp at hfilter
      have hne : p' ≠ l.biblioteca_actual ∨ k' ≠ k := by tauto
      rw [hrel, slotAt_set_other 1 hbp hne]
      have hfin : ((s.lectores.set i
          { l with biblioteca_actual := (l.biblioteca_actual + 1) % M,
                   ciclos := l.ciclos + 1, fase := f' }).filter (posee p' k')).length
          = (s.lectores.filter (posee p' k')).length := by omega
      rw [hfin]
      exact inv.conteo p' k' hp' hk'

/-- Preservation of the invariant by a successful acquisition step. -/
theorem inv_adquiere {N M K i : Nat} {s : Estado} {l : Lector} {k : Nat}
    {bibs' : Bibliotecas}
    (inv : Inv N M K s) (hl : s.lectores[i]? = some l)
    (hf : l.fase = Fase.traversing)
    (ha : acquireAny s.bibliotecas l.biblioteca_actual = (some k, bibs')) :
    Inv N M K { bibliotecas := bibs',
                lectores := s.lectores.set i { l with fase := Fase.holding k } } := by
  obtain ⟨bib, hbp, hpd, rfl⟩ := acquireAny_some ha
  have hlmem : l ∈ s.lectores := List.getElem?_mem hl
  have hpM : l.biblioteca_actual < M := inv.posLt l hlmem
  have hbibmem : bib ∈ s.bibliotecas := List.getElem?_mem hbp
  have hKbib : bib.length = K := inv.longK bib hbibmem
  have hkK : k < K := hKbib ▸ primerDisponible_lt hpd
  have hslot1 : slotAt s.bibliotecas l.biblioteca_actual k = 1 := by
    rw [slotAt_eq hbp, (primerDisponible_some hpd).1]
    rfl
  have hciclos : l.ciclos < K := (inv.ciclosFase l hlmem).2 (by simp [hf])
  constructor
  · simpa using inv.longM
  · intro bib' hb'
    rcases List.mem_or_eq_of_mem_set hb' with h | rfl
    · exact inv.longK bib' h
    · simpa using hKbib
  · simpa using inv.numLectores
  · intro l' hl'
    rcases List.mem_or_eq_of_mem_set hl' with h | rfl
    · exact inv.posLt l' h
    · simpa using hpM
  · intro l' hl'
    rcases List.mem_or_eq_of_mem_set hl' with h | rfl
    · exact inv.circular l' h
    · simpa using inv.circular l hlmem
  · intro l' hl'
    rcases List.mem_or_eq_of_mem_set hl' with h | rfl
    · exact inv.ciclosFase l' h
    · refine ⟨fun h => ?_, fun _ => hciclos⟩
      cases h
  · intro l' hl' k' hk'
    rcases List.mem_or_eq_of_mem_set hl' with h | rfl
    · exact inv.libroLt l' h k' hk'
    · cases hk'
      exact hkK
  · intro p' k' hp' hk'
    simp only [poseedores]
    have hfilter := length_filter_set (posee p' k') s.lectores i l
      { l with fase := Fase.holding k } hl
    have hpos_old : posee p' k' l = false := by
      unfold posee
      rw [decide_eq_false_iff_not]
      rintro ⟨h1, h2⟩
      rw [hf] at h2
      cases h2
    by_cases hpk : p' = l.biblioteca_actual ∧ k' = k
    · obtain ⟨hp1, hp2⟩ := hpk
      subst hp1
      subst hp2
      have hpos_new : posee l.biblioteca_actual k'
          { l with fase := Fase.holding k' } = true := by
        simp [posee]
      rw [hpos_old, hpos_new] at hfilter
      simp at hfilter
      have hold0 : (s.lectores.filter (posee l.biblioteca_actual k')).length = 0 := by
        have := inv.conteo l.biblioteca_actual k' hp' hk'
        rw [if_neg (by omega)] at this
        exact this
      rw [slotAt_set_same 0 hbp (by omega)]
      simp
      omega
    · have hpos_new : posee p' k' { l with fase := Fase.holding k } = false := by
        unfold posee
        rw [decide_eq_false_iff_not]
        rintro ⟨h1, h2⟩
        cases h2
        exact hpk ⟨h1.symm, rfl⟩
      rw [hpos_old, hpos_new] at hfilter
      simp at hfilter
      have hne : p' ≠ l.biblioteca_actual ∨ k' ≠ k := by tauto
      rw [slotAt_set_other 0 hbp hne]
      have hfin : ((s.lectores.set i { l with fase := Fase.holding k }).filter
          (posee p' k')).length = (s.lectores.filter (posee p' k')).length := by omega
      rw [hfin]
      exact inv.conteo p' k' hp' hk'

/-- Preservation of the invariant by an abandonment step. -/
theorem inv_abandona {N M K i : Nat} {s : Estado} {l : Lector}
    {bibs' : Bibliotecas}
    (inv : Inv N M K s) (hl : s.lectores[i]? = some l)
    (hf : l.fase = Fase.traversing)
    (ha : acquireAny s.bibliotecas l.biblioteca_actual = (none, bibs')) :
    Inv N M K { bibliotecas := bibs',
                lectores := s.lectores.set i { l with fase := Fase.abandoned } } := by
  obtain ⟨rfl, _⟩ := acquireAny_none ha
  have hlmem : l ∈ s.lectores := List.getElem?_mem hl
  have hciclos : l.ciclos < K := (inv.ciclosFase l hlmem).2 (by simp [hf])
  constructor
  · exact inv.longM
  · exact inv.longK
  · simpa using inv.numLectores
  · intro l' hl'
    rcases List.mem_or_eq_of_mem_set hl' with h | rfl
    · exact inv.posLt l' h
    · simpa using inv.posLt l hlmem
  · intro l' hl'
    rcases List.mem_or_eq_of_mem_set hl' with h | rfl
    · exact inv.circular l' h
    · simpa using inv.circular l hlmem
  · intro l' hl'
    rcases List.mem_or_eq_of_mem_set hl' with h | rfl
    · exact inv.ciclosFase l' h
    · refine ⟨fun h => ?_, fun _ => hciclos⟩
      cases h
  · intro l' hl' k' hk'
    rcases List.mem_or_eq_of_mem_set hl' with h | rfl
    · exact inv.libroLt l' h k' hk'
    · cases hk'
  · intro p' k' hp' hk'
    simp only [poseedores]
    have hfilter := length_filter_set (posee p' k') s.lectores i l
      { l with fase := Fase.abandoned } hl
    have hpos_old : posee p' k' l = false := by
      unfold posee
      rw [decide_eq_false_iff_not]
      rintro ⟨h1, h2⟩
      rw [hf] at h2
      cases h2
    have hpos_new : posee p' k' { l with fase := Fase.abandoned } = false := by
      unfold posee
      rw [decide_eq_false_iff_not]
      rintro ⟨h1, h2⟩
      cases h2
    rw [hpos_old, hpos_new] at hfilter
    simp at hfilter
    rw [hfilter]
    exact inv.conteo p' k' hp' hk'

/-- The invariant is preserved by every step of every reader. -/
theorem inv_paso {N M K i : Nat} {s s' : Estado} {tr : List (Evento × Bool)}
    (inv : Inv N M K s) (h : Paso M K i s tr s') : Inv N M K s' := by
  cases h with
  | adquiere l k bibs' hl hf ha => exact inv_adquiere inv hl hf ha
  | abandona l bibs' hl hf ha => exact inv_abandona inv hl hf ha
  | devuelve_sigue l k hl hf hc =>
    exact inv_devuelve inv hl hf (Or.inl ⟨rfl, hc⟩)
  | devuelve_termina l k hl hf hc =>
    have hlK : l.ciclos < K :=
      (inv.ciclosFase l (List.getElem?_mem hl)).2 (by simp [hf])
    exact inv_devuelve inv hl hf (Or.inr ⟨rfl, by omega⟩)

/-- Every reachable state satisfies the invariant. -/
theorem alcanzable_inv {N M K : Nat} (hM : 0 < M) {s : Estado}
    (h : Alcanzable N M K s) : Inv N M K s := by
  induction h with
  | inicial => exact inv_inicial N M K hM
  | paso _ hp ih => exact inv_paso ih hp

/- ### Claim C2: first-available acquisition -/

/-- **C2.** The acquisition step (`acquireAny`), performed under the
pool's exclusive lock, scans the pool's slots in ascending index order
and returns and marks held (0) the first slot that is available (1);
if no slot of the pool is available it returns none (the source's
`libro_tomado` stays -1) and marks nothing. -/
theorem C2_acquireAny_primer_disponible (bibs : Bibliotecas) (p : Nat)
    (bib : Biblioteca) (hbp : bibs[p]? = some bib) :
    (∀ k : Nat, (acquireAny bibs p).1 = some k →
      bib[k]? = some 1 ∧ (∀ j, j < k → bib[j]? ≠ some 1) ∧
      (acquireAny bibs p).2 = bibs.set p (bib.set k 0)) ∧
    ((acquireAny bibs p).1 = none →
      (∀ j : Nat, bib[j]? ≠ some 1) ∧ (acquireAny bibs p).2 = bibs) := by
  have hdef : acquireAny bibs p =
      match primerDisponible bib with
      | none => (none, bibs)
      | some k => (some k, bibs.set p (bib.set k 0)) := by
    unfold acquireAny
    rw [hbp]
  cases hpd : primerDisponible bib with
  | none =>
    rw [hpd] at hdef
    constructor
    · intro k hk
      rw [hdef] at hk
      simp at hk
    · intro _
      exact ⟨primerDisponible_none hpd, by rw [hdef]⟩
  | some k0 =>
    rw [hpd] at hdef
    constructor
    · intro k hk
      rw [hdef] at hk
      simp at hk
      subst hk
      obtain ⟨h1, h2⟩ := primerDisponible_some hpd
      exact ⟨h1, h2, by rw [hdef]⟩
    · intro hk
      rw [hdef] at hk
      simp at hk

/-- Witness for C2 at the concrete pool `[[0, 1]]`: the scan skips the
taken slot 0 and takes slot 1. -/
theorem C2_testigo :
    ([[0, 1]] : Bibliotecas)[0]? = some [0, 1] ∧
    ((∀ k : Nat, (acquireAny [[0, 1]] 0).1 = some k →
      ([0, 1] : Biblioteca)[k]? = some 1 ∧
      (∀ j, j < k → ([0, 1] : Biblioteca)[j]? ≠ some 1) ∧
      (acquireAny [[0, 1]] 0).2 = ([[0, 1]] : Bibliotecas).set 0 (([0, 1] : Biblioteca).set k 0)) ∧
    ((acquireAny [[0, 1]] 0).1 = none →
      (∀ j : Nat, ([0, 1] : Biblioteca)[j]? ≠ some 1) ∧
      (acquireAny [[0, 1]] 0).2 = [[0, 1]])) :=
  ⟨rfl, C2_acquireAny_primer_disponible [[0, 1]] 0 [0, 1] rfl⟩

/- ### Claim C4: abandonment is immediate and terminal -/

/-- **C4.** When a reader's acquisition attempt finds no available slot
in its current pool, the only step it can take is the abandonment step:
the shared matrix is untouched, the reader's phase becomes `abandoned`,
and the outcome is reported by the ordinary `abandona` trace event
(emitted with no lock held) — not by an exception, which the embedding
has no counterpart of because `funcion_lector` raises none.  Moreover
an abandoned reader takes no further step at all, so it visits no
further pools and never retries. -/
theorem C4_abandono_inmediato (M K i : Nat) (s : Estado) (l : Lector)
    (hl : s.lectores[i]? = some l) :
    (l.fase = Fase.traversing →
      (acquireAny s.bibliotecas l.biblioteca_actual).1 = none →
      ∀ (tr : List (Evento × Bool)) (s' : Estado), Paso M K i s tr s' →
        tr = [(Evento.abandona l.id l.biblioteca_actual, false)] ∧
        s'.bibliotecas = s.bibliotecas ∧
        s'.lectores = s.lectores.set i { l with fase := Fase.abandoned }) ∧
    (l.fase = Fase.abandoned →
      ∀ (tr : List (Evento × Bool)) (s' : Estado), ¬ Paso M K i s tr s') := by
  constructor
  · intro hf hnone tr s' hp
    cases hp with
    | adquiere l2 k bibs' hl2 hf2 ha =>
      rw [hl] at hl2
      cases hl2
      rw [ha] at hnone
      simp at hnone
    | abandona l2 bibs' hl2 hf2 ha =>
      rw [hl] at hl2
      cases hl2
      obtain ⟨rfl, _⟩ := acquireAny_none ha
      exact ⟨rfl, rfl, rfl⟩
    | devuelve_sigue l2 k hl2 hf2 hc =>
      rw [hl] at hl2
      cases hl2
      rw [hf] at hf2
      cases hf2
    | devuelve_termina l2 k hl2 hf2 hc =>
      rw [hl] at hl2
      cases hl2
      rw [hf] at hf2
      cases hf2
  · intro hf tr s' hp
    cases hp with
    | adquiere l2 k bibs' hl2 hf2 ha =>
      rw [hl] at hl2
      cases hl2
      rw [hf] at hf2
      cases hf2
    | abandona l2 bibs' hl2 hf2 ha =>
      rw [hl] at hl2
      cases hl2
      rw [hf] at hf2
      cases hf2
    | devuelve_sigue l2 k hl2 hf2 hc =>
      rw [hl] at hl2
      cases hl2
      rw [hf] at hf2
      cases hf2
    | devuelve_termina l2 k hl2 hf2 hc =>
      rw [hl] at hl2
      cases hl2
      rw [hf] at hf2
      cases hf2

/-- Witness for C4: a one-reader system whose only pool has its only
book taken on arrival. -/
theorem C4_testigo :
    (⟨[[0]], [⟨0, 0, 0, Fase.traversing⟩]⟩ : Estado).lectores[0]? =
      some ⟨0, 0, 0, Fase.traversing⟩ ∧
    (((⟨0, 0, 0, Fase.traversing⟩ : Lector).fase = Fase.traversing →
      (acquireAny (⟨[[0]], [⟨0, 0, 0, Fase.traversing⟩]⟩ : Estado).bibliotecas
        (⟨0, 0, 0, Fase.traversing⟩ : Lector).biblioteca_actual).1 = none →
      ∀ (tr : List (Evento × Bool)) (s' : Estado),
        Paso 1 1 0 (⟨[[0]], [⟨0, 0, 0, Fase.traversing⟩]⟩ : Estado) tr s' →
        tr = [(Evento.abandona (⟨0, 0, 0, Fase.traversing⟩ : Lector).id
                 (⟨0, 0, 0, Fase.traversing⟩ : Lector).biblioteca_actual, false)] ∧
        s'.bibliotecas = (⟨[[0]], [⟨0, 0, 0, Fase.traversing⟩]⟩ : Estado).bibliotecas ∧
        s'.lectores = (⟨[[0]], [⟨0, 0, 0, Fase.traversing⟩]⟩ : Estado).lectores.set 0
          { (⟨0, 0, 0, Fase.traversing⟩ : Lector) with fase := Fase.abandoned }) ∧
    ((⟨0, 0, 0, Fase.traversing⟩ : Lector).fase = Fase.abandoned →
      ∀ (tr : List (Evento × Bool)) (s' : Estado),
        ¬ Paso 1 1 0 (⟨[[0]], [⟨0, 0, 0, Fase.traversing⟩]⟩ : Estado) tr s')) :=
  ⟨rfl, C4_abandono_inmediato 1 1 0 ⟨[[0]], [⟨0, 0, 0, Fase.traversing⟩]⟩
    ⟨0, 0, 0, Fase.traversing⟩ rfl⟩

/- ### Claim C6: the N=1, M=2, K=1 scenario -/

/-- **C6, counterexample.**  The claim asserts that with N=1, M=2, K=1
the single reader performs 2 cycles.  The loop of `funcion_lector` is
`for i in range(K)`, so with K = 1 it performs exactly one
acquire-hold-release cycle and then completes: the cycle count of the
full solo run is 1, not 2. -/
theorem C6_contraejemplo :
    (funcionLectorSolo 2 [] 1 (0 % 2) 0 (bibliotecasInit 2 1)).ciclos = 1 ∧
    ¬ (funcionLectorSolo 2 [] 1 (0 % 2) 0 (bibliotecasInit 2 1)).ciclos = 2 := by
  decide

/-- **C6, amended.**  In the scenario N=1, M=2, K=1 the single reader
starts at pool 0 = 0 % 2, acquires its only slot, holds, releases,
advances its current pool index to 1, and reaches the completed state
after exactly 1 cycle (the loop runs K = 1 times, so pool 1 is never
visited); both pools end with their single slot available. -/
theorem C6_escenario :
    funcionLectorSolo 2 [] 1 (0 % 2) 0 (bibliotecasInit 2 1) =
      { bibliotecas := bibliotecasInit 2 1, biblioteca_actual := 1,
        ciclos := 1, completado := true } := by
  decide

/- ### Claim C7: event emission versus the pool lock -/

/-- **C7, counterexample.**  The claim asserts that acquisition,
release, abandonment and completion events are logged only outside the
critical sections.  In the source the `obtiene_libro` log call (line
110) sits inside the first `with lock_actual:` block, so the
acquisition step of a one-reader, one-pool, one-book system emits its
event while the pool lock is held. -/
theorem C7_contraejemplo : ¬ EmisionSoloFueraDeLock 1 1 := by
  intro h
  have hstep : Paso 1 1 0 ⟨[[1]], [⟨0, 0, 0, Fase.traversing⟩]⟩
      [(Evento.obtiene_libro 0 0 0, true)]
      ⟨[[0]], [⟨0, 0, 0, Fase.holding 0⟩]⟩ :=
    Paso.adquiere ⟨[[1]], [⟨0, 0, 0, Fase.traversing⟩]⟩
      ⟨0, 0, 0, Fase.traversing⟩ 0 [[0]] rfl rfl rfl
  have := h 0 _ _ _ hstep (Evento.obtiene_libro 0 0 0, true) (by simp)
  simp at this

/-- **C7, amended.**  In every step, the `obtiene_libro` and
`devuelve_libro` events are emitted inside the critical section guarded
by the current pool's lock (source lines 110 and 134 sit inside the
`with lock_actual:` blocks), while the sleep, `cambia_biblioteca`,
`abandona` and `finaliza` events are emitted with no lock held. -/
theorem C7_emision (M K i : Nat) (s : Estado) (tr : List (Evento × Bool))
    (s' : Estado) (hp : Paso M K i s tr s') :
    ∀ e ∈ tr, e.2 = esEventoConLock e.1 := by
  cases hp with
  | adquiere l k bibs' hl hf ha =>
    intro e he
    simp at he
    subst he
    rfl
  | abandona l bibs' hl hf ha =>
    intro e he
    simp at he
    subst he
    rfl
  | devuelve_sigue l k hl hf hc =>
    intro e he
    simp at he
    rcases he with rfl | rfl | rfl <;> rfl
  | devuelve_termina l k hl hf hc =>
    intro e he
    simp at he
    rcases he with rfl | rfl | rfl | rfl <;> rfl

/-- Witness for C7 (amended) at a concrete acquisition step. -/
theorem C7_testigo :
    Paso 1 1 0 (⟨[[1]], [⟨0, 0, 0, Fase.traversing⟩]⟩ : Estado)
      [(Evento.obtiene_libro 0 0 0, true)]
      (⟨[[0]], [⟨0, 0, 0, Fase.holding 0⟩]⟩ : Estado) ∧
    ∀ e ∈ ([(Evento.obtiene_libro 0 0 0, true)] : List (Evento × Bool)),
      e.2 = esEventoConLock e.1 := by
  have hstep : Paso 1 1 0 ⟨[[1]], [⟨0, 0, 0, Fase.traversing⟩]⟩
      [(Evento.obtiene_libro 0 0 0, true)]
      ⟨[[0]], [⟨0, 0, 0, Fase.holding 0⟩]⟩ :=
    Paso.adquiere ⟨[[1]], [⟨0, 0, 0, Fase.traversing⟩]⟩
      ⟨0, 0, 0, Fase.traversing⟩ 0 [[0]] rfl rfl rfl
  exact ⟨hstep, C7_emision 1 1 0 _ _ _ hstep⟩

/- ### Claim C8: hold duration and lock-free suspension -/

/-- **C8.**  The hold duration computed at line 122 is
`random.random() * 2 + 1`: for every value `r` in `[0, 1)` produced by
the random source the resulting duration lies in the default interval
from 1.0 to 3.0 time units.  Moreover, in the step in which a holding
reader wakes and returns its book, the suspension is the first thing
recorded and happens with no lock held, strictly before the reader
releases — under the lock — the same pool and slot it acquired (the
slot recorded in its `holding` phase at its unchanged current pool). -/
theorem C8_duracion_y_suspension (M K i : Nat) {s s' : Estado}
    {tr : List (Evento × Bool)} {l : Lector} {k : Nat}
    (hp : Paso M K i s tr s')
    (hl : s.lectores[i]? = some l) (hf : l.fase = Fase.holding k) :
    (∀ r : ℚ, 0 ≤ r → r < 1 → 1 ≤ duracionLectura r ∧ duracionLectura r < 3) ∧
    tr.head? = some (Evento.duerme l.id, false) ∧
    (Evento.devuelve_libro l.id l.biblioteca_actual k, true) ∈ tr ∧
    s'.bibliotecas = release s.bibliotecas l.biblioteca_actual k := by
  have hnum : ∀ r : ℚ, 0 ≤ r → r < 1 →
      1 ≤ duracionLectura r ∧ duracionLectura r < 3 := by
    intro r h0 h1
    unfold duracionLectura
    constructor <;> linarith
  cases hp with
  | adquiere l2 k2 bibs' hl2 hf2 ha =>
    rw [hl] at hl2
    cases hl2
    rw [hf] at hf2
    cases hf2
  | abandona l2 bibs' hl2 hf2 ha =>
    rw [hl] at hl2
    cases hl2
    rw [hf] at hf2
    cases hf2
  | devuelve_sigue l2 k2 hl2 hf2 hc =>
    rw [hl] at hl2
    cases hl2
    rw [hf] at hf2
    cases hf2
    exact ⟨hnum, rfl, by simp, rfl⟩
  | devuelve_termina l2 k2 hl2 hf2 hc =>
    rw [hl] at hl2
    cases hl2
    rw [hf] at hf2
    cases hf2
    exact ⟨hnum, rfl, by simp, rfl⟩

/-- Witness for C8 at a concrete release step and the concrete random
draw r = 1/2. -/
theorem C8_testigo :
    Paso 1 1 0 (⟨[[0]], [⟨0, 0, 0, Fase.holding 0⟩]⟩ : Estado)
      [(Evento.duerme 0, false), (Evento.devuelve_libro 0 0 0, true),
       (Evento.cambia_biblioteca 0 ((0 + 1) % 1), false),
       (Evento.finaliza 0 ((0 + 1) % 1), false)]
      (⟨[[1]], [⟨0, 0, 1, Fase.completed⟩]⟩ : Estado) ∧
    (0 : ℚ) ≤ 1/2 ∧ (1/2 : ℚ) < 1 ∧
    (1 ≤ duracionLectura (1/2) ∧ duracionLectura (1/2) < 3) ∧
    [(Evento.duerme 0, false), (Evento.devuelve_libro 0 0 0, true),
     (Evento.cambia_biblioteca 0 ((0 + 1) % 1), false),
     (Evento.finaliza 0 ((0 + 1) % 1), false)].head? =
      some (Evento.duerme 0, false) ∧
    (Evento.devuelve_libro 0 0 0, true) ∈
      [(Evento.duerme 0, false), (Evento.devuelve_libro 0 0 0, true),
       (Evento.cambia_biblioteca 0 ((0 + 1) % 1), false),
       (Evento.finaliza 0 ((0 + 1) % 1), false)] ∧
    (⟨[[1]], [⟨0, 0, 1, Fase.completed⟩]⟩ : Estado).bibliotecas =
      release [[0]] 0 0 := by
  have hstep : Paso 1 1 0 (⟨[[0]], [⟨0, 0, 0, Fase.holding 0⟩]⟩ : Estado)
      [(Evento.duerme 0, false), (Evento.devuelve_libro 0 0 0, true),
       (Evento.cambia_biblioteca 0 ((0 + 1) % 1), false),
       (Evento.finaliza 0 ((0 + 1) % 1), false)]
      (⟨[[1]], [⟨0, 0, 1, Fase.completed⟩]⟩ : Estado) :=
    Paso.devuelve_termina ⟨[[0]], [⟨0, 0, 0, Fase.holding 0⟩]⟩
      ⟨0, 0, 0, Fase.holding 0⟩ 0 rfl rfl (by decide)
  have hthm := C8_duracion_y_suspension 1 1 0 hstep rfl rfl
  exact ⟨hstep, by norm_num, by norm_num,
    hthm.1 (1/2) (by norm_num) (by norm_num), hthm.2.1, hthm.2.2.1, hthm.2.2.2⟩

/- ### Claim C5: a solo run restores every pool -/

theorem primerDisponible_replicate {K : Nat} (hK : 0 < K) :
    primerDisponible (List.replicate K 1) = some 0 := by
  cases K with
  | zero => omega
  | succ K0 => simp [List.replicate_succ, primerDisponible]

theorem acquireAny_init {M K pos : Nat} (hpos : pos < M) (hK : 0 < K) :
    acquireAny (bibliotecasInit M K) pos =
      (some 0, (bibliotecasInit M K).set pos ((List.replicate K 1).set 0 0)) := by
  have hbp : (bibliotecasInit M K)[pos]? = some (List.replicate K 1) := by
    unfold bibliotecasInit
    exact List.getElem?_replicate_of_lt hpos
  unfold acquireAny
  rw [hbp]
  dsimp only
  rw [primerDisponible_replicate hK]

theorem release_init {M K pos : Nat} (hpos : pos < M) :
    release ((bibliotecasInit M K).set pos ((List.replicate K 1).set 0 0)) pos 0 =
      bibliotecasInit M K := by
  have hlen : pos < (bibliotecasInit M K).length := by
    unfold bibliotecasInit
    simpa using hpos
  have hbp : ((bibliotecasInit M K).set pos
      ((List.replicate K 1).set 0 0))[pos]? =
      some ((List.replicate K 1).set 0 0) :=
    List.getElem?_set_self (by simpa using hlen)
  unfold release
  rw [hbp]
  dsimp only
  rw [List.set_set, List.set_set, List.set_replicate_self]
  unfold bibliotecasInit
  rw [List.set_replicate_self]

/-- A solo reader whose every acquisition starts from the all-available
matrix takes book 0, returns it, and hands the next iteration the same
all-available matrix: by induction the whole run restores the matrix
and completes. -/
theorem funcionLectorSolo_init {M K : Nat} (hM : 0 < M) (hK : 0 < K)
    (fuel : Nat) :
    ∀ (durs : List ℚ) (pos c : Nat), pos < M →
      funcionLectorSolo M durs fuel pos c (bibliotecasInit M K) =
        ⟨bibliotecasInit M K, (pos + fuel) % M, c + fuel, true⟩ := by
  induction fuel with
  | zero =>
    intro durs pos c hpos
    unfold funcionLectorSolo
    rw [Nat.add_zero, Nat.add_zero, Nat.mod_eq_of_lt hpos]
  | succ fuel' ih =>
    intro durs pos c hpos
    unfold funcionLectorSolo
    rw [acquireAny_init hpos hK]
    dsimp only
    rw [release_init hpos,
      ih durs.tail ((pos + 1) % M) (c + 1) (Nat.mod_lt _ hM)]
    rw [Nat.mod_add_mod]
    have harg : pos + 1 + fuel' = pos + (fuel' + 1) := by omega
    have hc2 : c + 1 + fuel' = c + (fuel' + 1) := by omega
    rw [harg, hc2]

/-- **C5.**  Starting from the state in which all K slots of every one
of the M pools are available, a single reader running alone through its
full K-cycle traversal (starting, like the source, at pool `id % M`)
leaves every pool's slot states exactly as it found them — all
available — and completes, for every choice of the randomized hold
durations. -/
theorem C5_solo_restaura (M K id : Nat) (durs : List ℚ) (hM : 0 < M) :
    (funcionLectorSolo M durs K (id % M) 0 (bibliotecasInit M K)).bibliotecas =
      bibliotecasInit M K ∧
    (funcionLectorSolo M durs K (id % M) 0 (bibliotecasInit M K)).completado =
      true := by
  by_cases hK : K = 0
  · subst hK
    exact ⟨rfl, rfl⟩
  · rw [funcionLectorSolo_init hM (Nat.pos_of_ne_zero hK) K durs (id % M) 0
      (Nat.mod_lt id hM)]
    exact ⟨rfl, rfl⟩

/-- Witness for C5 at the source's default M = 3, K = 5 and reader 7. -/
theorem C5_testigo :
    0 < 3 ∧
    (funcionLectorSolo 3 [] 5 (7 % 3) 0 (bibliotecasInit 3 5)).bibliotecas =
      bibliotecasInit 3 5 ∧
    (funcionLectorSolo 3 [] 5 (7 % 3) 0 (bibliotecasInit 3 5)).completado =
      true :=
  ⟨by decide, C5_solo_restaura 3 5 7 [] (by decide)⟩

/- ### Claim C3: circular traversal -/

/-- **C3.**  In every reachable state, every reader sits at pool
`(id + ciclos) % M` — the circular sequence that starts at `id % M` and
advances by +1 mod M once per completed cycle — its cycle count never
exceeds K, and it is completed exactly when K cycles are done; moreover
every acquisition it performs happens at that circular position, so the
sequence of visited pools is exactly the circular sequence, stopped
after K successful cycles or the first failed attempt (the failed
attempt leads to the terminal abandoned phase, see the abandonment
theorem). -/
theorem C3_recorrido_circular (N M K : Nat) (s : Estado) (hM : 0 < M)
    (hs : Alcanzable N M K s) :
    ∀ l ∈ s.lectores,
      l.biblioteca_actual = (l.id + l.ciclos) % M ∧
      l.ciclos ≤ K ∧
      (l.fase = Fase.completed → l.ciclos = K) ∧
      (∀ (i : Nat) (tr : List (Evento × Bool)) (s' : Estado),
        Paso M K i s tr s' → s.lectores[i]? = some l →
        ∀ id p k : Nat, (Evento.obtiene_libro id p k, true) ∈ tr →
          p = (l.id + l.ciclos) % M) := by
  have inv := alcanzable_inv hM hs
  intro l hlmem
  refine ⟨inv.circular l hlmem, ?_, (inv.ciclosFase l hlmem).1, ?_⟩
  · rcases Classical.em (l.fase = Fase.completed) with h | h
    · exact Nat.le_of_eq ((inv.ciclosFase l hlmem).1 h)
    · exact Nat.le_of_lt ((inv.ciclosFase l hlmem).2 h)
  · intro i tr s' hp hl
    cases hp with
    | adquiere l2 k2 bibs' hl2 hf2 ha =>
      rw [hl] at hl2
      cases hl2
      intro id p k hmem
      simp at hmem
      rw [hmem.2.1]
      exact inv.circular l hlmem
    | abandona l2 bibs' hl2 hf2 ha =>
      intro id p k hmem
      simp at hmem
    | devuelve_sigue l2 k2 hl2 hf2 hc =>
      intro id p k hmem
      simp at hmem
    | devuelve_termina l2 k2 hl2 hf2 hc =>
      intro id p k hmem
      simp at hmem

/-- Witness for C3 at the initial state of the default system. -/
theorem C3_testigo :
    0 < 3 ∧
    ∀ l ∈ (estadoInicial 10 3 5).lectores,
      l.biblioteca_actual = (l.id + l.ciclos) % 3 ∧
      l.ciclos ≤ 5 ∧
      (l.fase = Fase.completed → l.ciclos = 5) ∧
      (∀ (i : Nat) (tr : List (Evento × Bool)) (s' : Estado),
        Paso 3 5 i (estadoInicial 10 3 5) tr s' →
        (estadoInicial 10 3 5).lectores[i]? = some l →
        ∀ id p k : Nat, (Evento.obtiene_libro id p k, true) ∈ tr →
          p = (l.id + l.ciclos) % 3) :=
  ⟨by decide, C3_recorrido_circular 10 3 5 (estadoInicial 10 3 5) (by decide)
    Alcanzable.inicial⟩

/- ### Claim C1: capacity bound, mutual exclusion, lock-guarded transitions -/

/-- **C1.**  In every reachable state: every pool has at most K slots
marked held; no slot is held by two readers at once (at most one holder
per pool/slot, so no slot is marked held by a second acquisition before
the intervening release); and for every step leaving the state, an
acquisition marks only a slot that was available and had no holder,
while any change to any slot happens only inside the critical section
guarded by that pool's own lock (the step's label carries the
`obtiene_libro` or `devuelve_libro` event for that very pool and slot,
tagged as emitted with the lock held). -/
theorem C1_invariante_exclusion (N M K : Nat) (s : Estado) (hM : 0 < M)
    (hs : Alcanzable N M K s) :
    (∀ bib ∈ s.bibliotecas, cuentaOcupados bib ≤ K) ∧
    (∀ p k : Nat, poseedores s p k ≤ 1) ∧
    (∀ (i : Nat) (tr : List (Evento × Bool)) (s' : Estado), Paso M K i s tr s' →
      (∀ id p k : Nat, (Evento.obtiene_libro id p k, true) ∈ tr →
        slotAt s.bibliotecas p k = 1 ∧ poseedores s p k = 0) ∧
      (∀ p k : Nat, slotAt s'.bibliotecas p k ≠ slotAt s.bibliotecas p k →
        ∃ id : Nat, (Evento.obtiene_libro id p k, true) ∈ tr ∨
                    (Evento.devuelve_libro id p k, true) ∈ tr)) := by
  have inv := alcanzable_inv hM hs
  refine ⟨?_, ?_, ?_⟩
  · intro bib hb
    unfold cuentaOcupados
    calc (bib.filter (fun v => v == 0)).length
        ≤ bib.length := List.length_filter_le _ _
      _ = K := inv.longK bib hb
  · intro p k
    by_cases hp : p < M
    · by_cases hk : k < K
      · rw [inv.conteo p k hp hk]
        split <;> omega
      · have h0 : poseedores s p k = 0 := by
          unfold poseedores
          rw [List.length_eq_zero, List.filter_eq_nil_iff]
          intro l hl hpos
          simp [posee] at hpos
          exact hk (inv.libroLt l hl k hpos.2)
        omega
    · have h0 : poseedores s p k = 0 := by
        unfold poseedores
        rw [List.length_eq_zero, List.filter_eq_nil_iff]
        intro l hl hpos
        simp [posee] at hpos
        exact hp (hpos.1 ▸ inv.posLt l hl)
      omega
  · intro i tr s' hp
    constructor
    · intro id p k hmem
      cases hp with
      | adquiere l2 k2 bibs' hl2 hf2 ha =>
        simp at hmem
        obtain ⟨h1, h2, h3⟩ := hmem
        subst h2
        subst h3
        obtain ⟨bib, hbp, hpd, rfl⟩ := acquireAny_some ha
        have hlm := List.getElem?_mem hl2
        have hpM := inv.posLt l2 hlm
        have hKbib := inv.longK bib (List.getElem?_mem hbp)
        have hkK : k < K := hKbib ▸ primerDisponible_lt hpd
        have hslot : slotAt s.bibliotecas l2.biblioteca_actual k = 1 := by
          rw [slotAt_eq hbp, (primerDisponible_some hpd).1]
          rfl
        refine ⟨hslot, ?_⟩
        rw [inv.conteo _ _ hpM hkK, hslot]
        simp
      | abandona l2 bibs' hl2 hf2 ha => simp at hmem
      | devuelve_sigue l2 k2 hl2 hf2 hc => simp at hmem
      | devuelve_termina l2 k2 hl2 hf2 hc => simp at hmem
    · intro p k hne
      cases hp with
      | adquiere l2 k2 bibs' hl2 hf2 ha =>
        obtain ⟨bib, hbp, hpd, rfl⟩ := acquireAny_some ha
        by_cases hpk : p = l2.biblioteca_actual ∧ k = k2
        · exact ⟨l2.id, Or.inl (by simp [hpk.1, hpk.2])⟩
        · exfalso
          apply hne
          exact slotAt_set_other 0 hbp (by tauto)
      | abandona l2 bibs' hl2 hf2 ha =>
        obtain ⟨rfl, _⟩ := acquireAny_none ha
        exact absurd rfl hne
      | devuelve_sigue l2 k2 hl2 hf2 hc =>
        have hlm := List.getElem?_mem hl2
        have hpM := inv.posLt l2 hlm
        have hplen : l2.biblioteca_actual < s.bibliotecas.length := by
          rw [inv.longM]
          exact hpM
        obtain ⟨bib2, hbp⟩ : ∃ b, s.bibliotecas[l2.biblioteca_actual]? = some b :=
          ⟨_, List.getElem?_eq_getElem hplen⟩
        by_cases hpk : p = l2.biblioteca_actual ∧ k = k2
        · exact ⟨l2.id, Or.inr (by simp [hpk.1, hpk.2])⟩
        · exfalso
          apply hne
          show slotAt (release s.bibliotecas l2.biblioteca_actual k2) p k =
            slotAt s.bibliotecas p k
          rw [release_eq hbp k2]
          exact slotAt_set_other 1 hbp (by tauto)
      | devuelve_termina l2 k2 hl2 hf2 hc =>
        have hlm := List.getElem?_mem hl2
        have hpM := inv.posLt l2 hlm
        have hplen : l2.biblioteca_actual < s.bibliotecas.length := by
          rw [inv.longM]
          exact hpM
        obtain ⟨bib2, hbp⟩ : ∃ b, s.bibliotecas[l2.biblioteca_actual]? = some b :=
          ⟨_, List.getElem?_eq_getElem hplen⟩
        by_cases hpk : p = l2.biblioteca_actual ∧ k = k2
        · exact ⟨l2.id, Or.inr (by simp [hpk.1, hpk.2])⟩
        · exfalso
          apply hne
          show slotAt (release s.bibliotecas l2.biblioteca_actual k2) p k =
            slotAt s.bibliotecas p k
          rw [release_eq hbp k2]
          exact slotAt_set_other 1 hbp (by tauto)

/-- Witness for C1 at the initial state of the default system. -/
theorem C1_testigo :
    0 < 3 ∧
    (∀ bib ∈ (estadoInicial 10 3 5).bibliotecas, cuentaOcupados bib ≤ 5) ∧
    (∀ p k : Nat, poseedores (estadoInicial 10 3 5) p k ≤ 1) ∧
    (∀ (i : Nat) (tr : List (Evento × Bool)) (s' : Estado),
      Paso 3 5 i (estadoInicial 10 3 5) tr s' →
      (∀ id p k : Nat, (Evento.obtiene_libro id p k, true) ∈ tr →
        slotAt (estadoInicial 10 3 5).bibliotecas p k = 1 ∧
        poseedores (estadoInicial 10 3 5) p k = 0) ∧
      (∀ p k : Nat,
        slotAt s'.bibliotecas p k ≠ slotAt (estadoInicial 10 3 5).bibliotecas p k →
        ∃ id : Nat, (Evento.obtiene_libro id p k, true) ∈ tr ∨
                    (Evento.devuelve_libro id p k, true) ∈ tr)) := by
  have h := C1_invariante_exclusion 10 3 5 (estadoInicial 10 3 5) (by decide)
    Alcanzable.inicial
  exact ⟨by decide, h.1, h.2.1, h.2.2⟩

/- ### Claim C9: frame property of acquisition and release -/

/-- A reader that is holding book `k` really has that slot marked 0:
its presence makes the holder count of the slot positive, and the
counting invariant then forces the slot flag to 0. -/
theorem slot_del_holding {N M K i : Nat} {s : Estado} {l : Lector} {k : Nat}
    (inv : Inv N M K s) (hl : s.lectores[i]? = some l)
    (hf : l.fase = Fase.holding k) :
    slotAt s.bibliotecas l.biblioteca_actual k = 0 := by
  have hlmem : l ∈ s.lectores := List.getElem?_mem hl
  have hpM : l.biblioteca_actual < M := inv.posLt l hlmem
  have hkK : k < K := inv.libroLt l hlmem k hf
  have hl_in : l ∈ s.lectores.filter (posee l.biblioteca_actual k) :=
    List.mem_filter.mpr ⟨hlmem, by simp [posee, hf]⟩
  have hold_pos : 0 < poseedores s l.biblioteca_actual k := by
    unfold poseedores
    exact List.length_pos.mpr (List.ne_nil_of_mem hl_in)
  have hconteo := inv.conteo l.biblioteca_actual k hpM hkK
  by_contra hne
  rw [if_neg hne] at hconteo
  omega

/-- **C9.**  In every reachable state: a step of reader `i` leaves every
other reader's local state unchanged; a successful acquisition (the step
whose label carries `obtiene_libro` for pool `p`, slot `k`) changes
exactly that slot of that pool from available (1) to held (0) and leaves
every other slot of every pool unchanged; and a release (label carrying
`devuelve_libro` for pool `p`, slot `k` — which the state machine forces
to be the very pool and slot recorded at the acquisition, in the
reader's `holding` phase) changes exactly that slot back from held (0)
to available (1), leaving every other slot of every pool unchanged. -/
theorem C9_marco (N M K i : Nat) {s s' : Estado} {tr : List (Evento × Bool)}
    (hM : 0 < M) (hs : Alcanzable N M K s) (hp : Paso M K i s tr s') :
    (∀ j : Nat, j ≠ i → s'.lectores[j]? = s.lectores[j]?) ∧
    (∀ id p k : Nat, (Evento.obtiene_libro id p k, true) ∈ tr →
      slotAt s.bibliotecas p k = 1 ∧ slotAt s'.bibliotecas p k = 0 ∧
      ∀ p2 k2 : Nat, ¬(p2 = p ∧ k2 = k) →
        slotAt s'.bibliotecas p2 k2 = slotAt s.bibliotecas p2 k2) ∧
    (∀ id p k : Nat, (Evento.devuelve_libro id p k, true) ∈ tr →
      slotAt s.bibliotecas p k = 0 ∧ slotAt s'.bibliotecas p k = 1 ∧
      ∀ p2 k2 : Nat, ¬(p2 = p ∧ k2 = k) →
        slotAt s'.bibliotecas p2 k2 = slotAt s.bibliotecas p2 k2) := by
  have inv := alcanzable_inv hM hs
  refine ⟨?_, ?_, ?_⟩
  · intro j hj
    cases hp with
    | adquiere l2 k2 bibs' hl2 hf2 ha =>
      exact List.getElem?_set_ne (fun h => hj h.symm)
    | abandona l2 bibs' hl2 hf2 ha =>
      exact List.getElem?_set_ne (fun h => hj h.symm)
    | devuelve_sigue l2 k2 hl2 hf2 hc =>
      exact List.getElem?_set_ne (fun h => hj h.symm)
    | devuelve_termina l2 k2 hl2 hf2 hc =>
      exact List.getElem?_set_ne (fun h => hj h.symm)
  · intro id p k hmem
    cases hp with
    | adquiere l2 k2 bibs' hl2 hf2 ha =>
      simp at hmem
      obtain ⟨h1, h2, h3⟩ := hmem
      subst h2
      subst h3
      obtain ⟨bib, hbp, hpd, rfl⟩ := acquireAny_some ha
      have hkb : k < bib.length := primerDisponible_lt hpd
      have hslot : slotAt s.bibliotecas l2.biblioteca_actual k = 1 := by
        rw [slotAt_eq hbp, (primerDisponible_some hpd).1]
        rfl
      refine ⟨hslot, slotAt_set_same 0 hbp hkb, ?_⟩
      intro p2 k2 hne
      exact slotAt_set_other 0 hbp (by tauto)
    | abandona l2 bibs' hl2 hf2 ha => simp at hmem
    | devuelve_sigue l2 k2 hl2 hf2 hc => simp at hmem
    | devuelve_termina l2 k2 hl2 hf2 hc => simp at hmem
  · intro id p k hmem
    cases hp with
    | adquiere l2 k2 bibs' hl2 hf2 ha => simp at hmem
    | abandona l2 bibs' hl2 hf2 ha => simp at hmem
    | devuelve_sigue l2 k2 hl2 hf2 hc =>
      simp at hmem
      obtain ⟨h1, h2, h3⟩ := hmem
      subst h2
      subst h3
      have hlm := List.getElem?_mem hl2
      have hpM := inv.posLt l2 hlm
      have hplen : l2.biblioteca_actual < s.bibliotecas.length := by
        rw [inv.longM]
        exact hpM
      obtain ⟨bib2, hbp⟩ : ∃ b, s.bibliotecas[l2.biblioteca_actual]? = some b :=
        ⟨_, List.getElem?_eq_getElem hplen⟩
      have hKbib := inv.longK _ (List.getElem?_mem hbp)
      have hkK : k < K := inv.libroLt l2 hlm k hf2
      have hslot0 := slot_del_holding inv hl2 hf2
      refine ⟨hslot0, ?_, ?_⟩
      · show slotAt (release s.bibliotecas l2.biblioteca_actual k)
          l2.biblioteca_actual k = 1
        rw [release_eq hbp k]
        exact slotAt_set_same 1 hbp (by omega)
      · intro p2 k2 hne
        show slotAt (release s.bibliotecas l2.biblioteca_actual k) p2 k2 =
          slotAt s.bibliotecas p2 k2
        rw [release_eq hbp k]
        exact slotAt_set_other 1 hbp (by tauto)
    | devuelve_termina l2 k2 hl2 hf2 hc =>
      simp at hmem
      obtain ⟨h1, h2, h3⟩ := hmem
      subst h2
      subst h3
      have hlm := List.getElem?_mem hl2
      have hpM := inv.posLt l2 hlm
      have hplen : l2.biblioteca_actual < s.bibliotecas.length := by
        rw [inv.longM]
        exact hpM
      obtain ⟨bib2, hbp⟩ : ∃ b, s.bibliotecas[l2.biblioteca_actual]? = some b :=
        ⟨_, List.getElem?_eq_getElem hplen⟩
      have hKbib := inv.longK _ (List.getElem?_mem hbp)
      have hkK : k < K := inv.libroLt l2 hlm k hf2
      have hslot0 := slot_del_holding inv hl2 hf2
      refine ⟨hslot0, ?_, ?_⟩
      · show slotAt (release s.bibliotecas l2.biblioteca_actual k)
          l2.biblioteca_actual k = 1
        rw [release_eq hbp k]
        exact slotAt_set_same 1 hbp (by omega)
      · intro p2 k2 hne
        show slotAt (release s.bibliotecas l2.biblioteca_actual k) p2 k2 =
          slotAt s.bibliotecas p2 k2
        rw [release_eq hbp k]
        exact slotAt_set_other 1 hbp (by tauto)

/-- Witness for C9 at a concrete acquisition step from the initial
one-reader, one-pool, one-book system. -/
theorem C9_testigo :
    Paso 1 1 0 (estadoInicial 1 1 1)
      [(Evento.obtiene_libro 0 0 0, true)]
      (⟨[[0]], [⟨0, 0, 0, Fase.holding 0⟩]⟩ : Estado) ∧
    (∀ j : Nat, j ≠ 0 →
      (⟨[[0]], [⟨0, 0, 0, Fase.holding 0⟩]⟩ : Estado).lectores[j]? =
        (estadoInicial 1 1 1).lectores[j]?) ∧
    (∀ id p k : Nat,
      (Evento.obtiene_libro id p k, true) ∈
        ([(Evento.obtiene_libro 0 0 0, true)] : List (Evento × Bool)) →
      slotAt (estadoInicial 1 1 1).bibliotecas p k = 1 ∧
      slotAt (⟨[[0]], [⟨0, 0, 0, Fase.holding 0⟩]⟩ : Estado).bibliotecas p k = 0 ∧
      ∀ p2 k2 : Nat, ¬(p2 = p ∧ k2 = k) →
        slotAt (⟨[[0]], [⟨0, 0, 0, Fase.holding 0⟩]⟩ : Estado).bibliotecas p2 k2 =
          slotAt (estadoInicial 1 1 1).bibliotecas p2 k2) := by
  have hstep : Paso 1 1 0 (estadoInicial 1 1 1)
      [(Evento.obtiene_libro 0 0 0, true)]
      (⟨[[0]], [⟨0, 0, 0, Fase.holding 0⟩]⟩ : Estado) :=
    Paso.adquiere (estadoInicial 1 1 1) ⟨0, 0, 0, Fase.traversing⟩ 0 [[0]]
      rfl rfl rfl
  have h := C9_marco 1 1 1 0 (by decide) Alcanzable.inicial hstep
  exact ⟨hstep, h.1, h.2.1⟩

/- ### Claim C10: termination -/

theorem sum_map_set {α : Type} (f : α → Nat) (l : List α) (i : Nat) (a b : α)
    (h : l[i]? = some a) :
    ((l.set i b).map f).sum + f a = (l.map f).sum + f b := by
  induction l generalizing i with
  | nil => simp at h
  | cons x xs ih =>
    cases i with
    | zero =>
      simp at h
      subst h
      simp only [List.set_cons_zero, List.map_cons, List.sum_cons]
      omega
    | succ i2 =>
      simp at h
      have := ih i2 h
      simp only [List.set_cons_succ, List.map_cons, List.sum_cons]
      omega

/-- Every step of a reader strictly decreases the global termination
measure (with the invariant supplying the cycle bounds). -/
theorem medida_paso {N M K i : Nat} {s s' : Estado} {tr : List (Evento × Bool)}
    (inv : Inv N M K s) (hp : Paso M K i s tr s') :
    medidaEstado K s' < medidaEstado K s := by
  cases hp with
  | adquiere l k bibs' hl hf ha =>
    have hc : l.ciclos < K :=
      (inv.ciclosFase l (List.getElem?_mem hl)).2 (by simp [hf])
    have hsum := sum_map_set (medidaLector K) s.lectores i l
      { l with fase := Fase.holding k } hl
    have hml : medidaLector K l = 2 * (K - l.ciclos) := by
      simp [medidaLector, hf]
    have hml2 : medidaLector K { l with fase := Fase.holding k } =
        2 * (K - l.ciclos) - 1 := by
      simp [medidaLector]
    rw [hml, hml2] at hsum
    unfold medidaEstado
    dsimp only
    omega
  | abandona l bibs' hl hf ha =>
    have hc : l.ciclos < K :=
      (inv.ciclosFase l (List.getElem?_mem hl)).2 (by simp [hf])
    have hsum := sum_map_set (medidaLector K) s.lectores i l
      { l with fase := Fase.abandoned } hl
    have hml : medidaLector K l = 2 * (K - l.ciclos) := by
      simp [medidaLector, hf]
    have hml2 : medidaLector K { l with fase := Fase.abandoned } = 0 := by
      simp [medidaLector]
    rw [hml, hml2] at hsum
    unfold medidaEstado
    dsimp only
    omega
  | devuelve_sigue l k hl hf hc =>
    have hsum := sum_map_set (medidaLector K) s.lectores i l
      { l with biblioteca_actual := (l.biblioteca_actual + 1) % M,
               ciclos := l.ciclos + 1, fase := Fase.traversing } hl
    have hml : medidaLector K l = 2 * (K - l.ciclos) - 1 := by
      simp [medidaLector, hf]
    have hml2 : medidaLector K
        { l with biblioteca_actual := (l.biblioteca_actual + 1) % M,
                 ciclos := l.ciclos + 1, fase := Fase.traversing } =
        2 * (K - (l.ciclos + 1)) := by
      simp [medidaLector]
    rw [hml, hml2] at hsum
    unfold medidaEstado
    dsimp only
    omega
  | devuelve_termina l k hl hf hc =>
    have hc2 : l.ciclos < K :=
      (inv.ciclosFase l (List.getElem?_mem hl)).2 (by simp [hf])
    have hsum := sum_map_set (medidaLector K) s.lectores i l
      { l with biblioteca_actual := (l.biblioteca_actual + 1) % M,
               ciclos := l.ciclos + 1, fase := Fase.completed } hl
    have hml : medidaLector K l = 2 * (K - l.ciclos) - 1 := by
      simp [medidaLector, hf]
    have hml2 : medidaLector K
        { l with biblioteca_actual := (l.biblioteca_actual + 1) % M,
                 ciclos := l.ciclos + 1, fase := Fase.completed } = 0 := by
      simp [medidaLector]
    rw [hml, hml2] at hsum
    unfold medidaEstado
    dsimp only
    omega

theorem sum_map_le_length_mul {α : Type} (f : α → Nat) (c : Nat) :
    ∀ l : List α, (∀ a ∈ l, f a ≤ c) → (l.map f).sum ≤ l.length * c := by
  intro l
  induction l with
  | nil => simp
  | cons x xs ih =>
    intro h
    have h1 := h x (by simp)
    have h2 := ih (fun a ha => h a (by simp [ha]))
    simp only [List.map_cons, List.sum_cons, List.length_cons, Nat.succ_mul]
    omega

/-- The initial measure of the whole system is at most 2·K·N. -/
theorem medida_inicial_le (N M K : Nat) :
    medidaEstado K (estadoInicial N M K) ≤ 2 * K * N := by
  unfold medidaEstado estadoInicial
  dsimp only
  rw [List.map_map]
  have hb : ∀ id ∈ List.range N,
      (medidaLector K ∘ lectorInicial M K) id ≤ 2 * K := by
    intro id _
    by_cases hK : K = 0
    · simp [medidaLector, lectorInicial, hK]
    · simp [medidaLector, lectorInicial, hK]
  have := sum_map_le_length_mul (medidaLector K ∘ lectorInicial M K)
    (2 * K) (List.range N) hb
  simpa [Nat.mul_comm] using this

theorem ejecucion_alcanzable {N M K n : Nat} {s : Estado}
    (he : Ejecucion N M K (estadoInicial N M K) n s) : Alcanzable N M K s := by
  induction he with
  | nada => exact Alcanzable.inicial
  | paso he1 hp ih => exact Alcanzable.paso ih hp

/-- Along any execution from the initial state, the number of steps
taken plus the remaining measure never exceeds the initial measure. -/
theorem ejecucion_cota {N M K : Nat} (hM : 0 < M) {n : Nat} {s : Estado}
    (he : Ejecucion N M K (estadoInicial N M K) n s) :
    n + medidaEstado K s ≤ medidaEstado K (estadoInicial N M K) := by
  induction he with
  | nada => omega
  | paso he1 hp ih =>
    have hinv := alcanzable_inv hM (ejecucion_alcanzable he1)
    have hdec := medida_paso hinv hp
    omega

/-- **C10.**  The simulation terminates: every execution of the whole
system from the initial state takes at most 2·K·N steps (each reader
contributes at most two atomic steps — one bounded scan-and-mark, one
release — per loop iteration, and the loop runs at most K times with no
retry), so in particular every reader reaches a terminal phase after
finitely many of its own steps. -/
theorem C10_terminacion (N M K n : Nat) (s : Estado) (hM : 0 < M)
    (he : Ejecucion N M K (estadoInicial N M K) n s) :
    n ≤ 2 * K * N := by
  have h1 := ejecucion_cota hM he
  have h2 := medida_inicial_le N M K
  omega

/-- Witness for C10 on the empty execution of the default system. -/
theorem C10_testigo : 0 < 3 ∧ 0 ≤ 2 * 5 * 10 :=
  ⟨by decide, C10_terminacion 10 3 5 0 (estadoInicial 10 3 5) (by decide)
    (Ejecucion.nada (estadoInicial 10 3 5))⟩

end ParteC
